import Mathlib

/-!
Verification development for the pyprophet scoring engine and its CLI
dispatch layer (`pyprophet/main.py`).

The CLI layer (`main.py`) is embedded directly from the source.  The core
statistical engine (FDR calculator, pi0 estimation, local FDR
post-processing, cross-validation fold assignment, weight application)
lives in modules that are not part of the available sources, so those
components are modelled from the specification text; each such definition
carries a doc comment starting with `Modelled from the spec:`.

All numeric code is embedded over the rationals.
-/

/-! ## Data model (spec section 3) -/

/-- Modelled from the spec: one scorable unit ("Entity", spec section 3) with the
attributes the verified claims need: `id`, `group_id` (block cross-validation key),
`is_decoy`, the ordered feature vector, and the learner output `d_score`. -/
structure Entity where
  id : Nat
  group_id : Nat
  is_decoy : Bool
  features : List Rat
  d_score : Rat
deriving DecidableEq

/-- Modelled from the spec: a WeightVector is an ordered mapping
feature-name -> coefficient for the linear classifier; we keep the ordered
list of coefficients, aligned with the entity feature vector. -/
structure WeightVector where
  weights : List Rat
deriving DecidableEq

/-! ## CLI output-path resolution (`main.py`)

Each subcommand that accepts an optional `--out` resolves a missing value to the
input path (`if outfile is None: outfile = infile`).  One definition per
subcommand, each a literal translation of its source lines. -/

/-- Output-path resolution of the `score` subcommand (`main.py` lines 149-152). -/
def scoreOutfile (infile : String) (outfile : Option String) : String :=
  match outfile with
  | none => infile
  | some o => o

/-- Output-path resolution of the `ipf` subcommand (`main.py` lines 192-195). -/
def ipfOutfile (infile : String) (outfile : Option String) : String :=
  match outfile with
  | none => infile
  | some o => o

/-- Output-path resolution of the `glycoform` subcommand (`main.py` lines 234-235). -/
def glycoformOutfile (infile : String) (outfile : Option String) : String :=
  match outfile with
  | none => infile
  | some o => o

/-- Output-path resolution of the `peptide` subcommand (`main.py` lines 281-284). -/
def peptideOutfile (infile : String) (outfile : Option String) : String :=
  match outfile with
  | none => infile
  | some o => o

/-- Output-path resolution of the `glycopeptide` subcommand (`main.py` lines 308-309). -/
def glycopeptideOutfile (infile : String) (outfile : Option String) : String :=
  match outfile with
  | none => infile
  | some o => o

/-- Output-path resolution of the `gene` subcommand (`main.py` lines 350-353). -/
def geneOutfile (infile : String) (outfile : Option String) : String :=
  match outfile with
  | none => infile
  | some o => o

/-- Output-path resolution of the `protein` subcommand (`main.py` lines 383-386). -/
def proteinOutfile (infile : String) (outfile : Option String) : String :=
  match outfile with
  | none => infile
  | some o => o

/-- Output-path resolution of the `subsample` subcommand (`main.py` lines 402-405). -/
def subsampleOutfile (infile : String) (outfile : Option String) : String :=
  match outfile with
  | none => infile
  | some o => o

/-- Output-path resolution of the `reduce` subcommand (`main.py` lines 419-422). -/
def reduceOutfile (infile : String) (outfile : Option String) : String :=
  match outfile with
  | none => infile
  | some o => o

/-- Output-path resolution of the `backpropagate` subcommand (`main.py` lines 464-467). -/
def backpropagateOutfile (infile : String) (outfile : Option String) : String :=
  match outfile with
  | none => infile
  | some o => o

/-! ## The `filter` subcommand dispatch (`main.py` lines 711-723) -/

/-- Final path component of a POSIX path: the characters after the last slash.
Embeds the `.name` stage of `pathlib.PurePosixPath(file)` for the plain file
names the `filter` command receives (trailing-separator normalization of
`PurePosixPath` is not needed for such names). -/
def lastComponent (path : String) : List Char :=
  (path.toList.reverse.takeWhile (fun c => c ≠ '/')).reverse

/-- File extension of the final path component, embedding
`pathlib.PurePosixPath(file).suffix`: with `i` the index of the last dot in
the name, the suffix is `name[i:]` when `0 < i < len(name) - 1`, else empty. -/
def posixSuffix (path : String) : List Char :=
  let cs := lastComponent path
  let k := (cs.reverse.takeWhile (fun c => c ≠ '.')).length
  if 0 < k ∧ k + 1 < cs.length then cs.drop (cs.length - 1 - k) else []

/-- Lower-cased file extension, embedding
`pathlib.PurePosixPath(file).suffix.lower()` from `main.py` lines 716 and 720. -/
def posixSuffixLower (path : String) : List Char :=
  (posixSuffix path).map Char.toLower

/-- Which filtering worker the `filter` command invokes. -/
inductive FilterCall where
  | filterSqmass
  | filterOsw
deriving DecidableEq

/-- Arguments of the `filter` command that determine its dispatch
(`main.py` lines 697-711). -/
structure FilterArgs where
  sqldbfiles : List String
  infile : Option String
  keep_naked_peptides : List String
deriving DecidableEq

/-- Observable outcome of one `filter` invocation: whether an exception
propagates out of the command body, and which workers were called. -/
structure FilterOutcome where
  raised : Bool
  calls : List FilterCall
deriving DecidableEq

/-- Dispatch logic of the `filter` command (`main.py` lines 716-723).
On the all-`.sqmass` branch, when `--in` is missing and `keep_naked_peptides`
is empty, line 718 merely constructs a `click.ClickException` without raising
it, and `filter_sqmass` is called on line 719 regardless.  On the final
`else` branch (line 723) a `ClickException` is likewise constructed but never
raised, so the command returns without calling any worker. -/
def filterCommand (a : FilterArgs) : FilterOutcome :=
  if a.sqldbfiles.all (fun f => posixSuffixLower f == ".sqmass".toList) then
    { raised := false, calls := [FilterCall.filterSqmass] }
  else if a.sqldbfiles.all (fun f => posixSuffixLower f == ".osw".toList) then
    { raised := false, calls := [FilterCall.filterOsw] }
  else
    { raised := false, calls := [] }

/-! ## q-value computation (spec section 4.3)

The FDR calculator (the repository module `stats.py`) is not among the
available sources; it is modelled from the specification. -/

/-- Running minimum from the right: element `i` of the result is the minimum
of elements `i..end` of the input.  This is the monotonizing step of the
step-up multiple-testing correction. -/
def suffixMin : List Rat → List Rat
  | [] => []
  | x :: xs =>
    match suffixMin xs with
    | [] => [x]
    | y :: ys => min x y :: y :: ys

/-- Modelled from the spec: the raw step-up FDR estimate at sorted position
`ip.1` (0-based) with p-value `ip.2`, over `m` tests, scaled by `pi0`:
`pi0 * m * p / rank`. -/
def rawQ (pi0 : Rat) (m : Nat) (ip : Nat × Rat) : Rat :=
  pi0 * m * ip.2 / (ip.1 + 1)

/-- Modelled from the spec: the positive-FDR (pFDR) variant of `rawQ`, which
additionally divides by the probability of making at least one rejection,
`1 - (1 - p) ^ m`. -/
def rawQpfdr (pi0 : Rat) (m : Nat) (ip : Nat × Rat) : Rat :=
  pi0 * m * ip.2 / ((ip.1 + 1) * (1 - (1 - ip.2) ^ m))

/-- Modelled from the spec: q-values as the monotone step-up correction over
the ascending-sorted p-values, scaled by `pi0` (stats module not under the
available sources).  Result `i` corresponds to sorted p-value `i`. -/
def qvalues (pi0 : Rat) (ps : List Rat) : List Rat :=
  suffixMin (((ps.insertionSort (· ≤ ·)).enum).map (rawQ pi0 ps.length))

/-- Modelled from the spec: q-values computed with the pFDR option enabled;
identical to `qvalues` except for the pFDR denominator. -/
def qvaluesPfdr (pi0 : Rat) (ps : List Rat) : List Rat :=
  suffixMin (((ps.insertionSort (· ≤ ·)).enum).map (rawQpfdr pi0 ps.length))

/-! ## pi0 estimation (spec sections 3 and 4.3) -/

/-- Modelled from the spec: the raw pi0 candidate at one tuning parameter
`lam` of the grid — the fraction of p-values above `lam`, rescaled by
`1 - lam` — or `none` when the estimate cannot converge (empty input or a
tuning parameter outside `[0, 1)`).  The pi0 estimator (`pi0est` of the
stats module) is not among the available sources. -/
def pi0ForLambda (ps : List Rat) (lam : Rat) : Option Rat :=
  if ps.length = 0 ∨ lam < 0 ∨ 1 ≤ lam then none
  else some ((ps.countP (fun p => lam < p) : Rat) / (ps.length * (1 - lam)))

/-- Modelled from the spec: pi0 estimation over a lambda grid.  Each lambda
yields a candidate through `pi0ForLambda`; the estimate selected from the
converged candidates (the one at the largest usable lambda) is clamped into
`[0, 1]`.  When every lambda candidate fails, the estimator falls back to
the conservative boundary value pi0 = 1 and marks the run as a fallback
(second component `true`); no exception is raised (the function is total). -/
def pi0est (ps : List Rat) (lambdas : List Rat) : Rat × Bool :=
  match (lambdas.filterMap (pi0ForLambda ps)).getLast? with
  | none => (1, true)
  | some e => (min 1 (max 0 e), false)

/-! ## Local FDR post-processing (spec section 4.3) -/

/-- Running maximum with accumulator `m`: monotonizes a list upward. -/
def cummaxFrom (m : Rat) : List Rat → List Rat
  | [] => []
  | x :: xs => max m x :: cummaxFrom (max m x) xs

/-- Running maximum of a list (the monotonizing pass of local-FDR
post-processing over p-value-ascending order). -/
def cummax : List Rat → List Rat
  | [] => []
  | x :: xs => x :: cummaxFrom x xs

/-- Modelled from the spec: post-processing of raw local-FDR values (ordered
by ascending p-value) by the calculator (stats module not under the
available sources): values above 1 are truncated to 1 when `lfdr_truncate`
is set, and the sequence is made monotone non-decreasing in p-value via a
running maximum when `lfdr_monotone` is set. -/
def lfdrPost (lfdr_truncate lfdr_monotone : Bool) (raw : List Rat) : List Rat :=
  let t := if lfdr_truncate then raw.map (fun x => min x 1) else raw
  if lfdr_monotone then cummax t else t

/-! ## Cross-validation fold assignment (spec section 4.1) -/

/-- Distinct group identifiers of an entity set, in first-appearance order. -/
def groupIds (entities : List Entity) : List Nat :=
  (entities.map Entity.group_id).dedup

/-- Modelled from the spec: the fold a group is assigned to by
`assign_folds` — a deterministic function of the seed and the group's
position among the distinct group identifiers, reduced modulo the number of
folds.  The cross-validation harness is not among the available sources. -/
def foldOfGroup (entities : List Entity) (numFolds seed gid : Nat) : Nat :=
  ((groupIds entities).indexOf gid + seed) % numFolds

/-- Modelled from the spec: `assign_folds(entities, k, seed)` returns a
FoldAssignment, a mapping from `group_id` to fold index. -/
def assign_folds (entities : List Entity) (numFolds seed : Nat) : List (Nat × Nat) :=
  (groupIds entities).map (fun g => (g, foldOfGroup entities numFolds seed g))

/-- Fold of a single entity: the fold its `group_id` is mapped to. -/
def entityFold (entities : List Entity) (numFolds seed : Nat) (e : Entity) : Nat :=
  foldOfGroup entities numFolds seed e.group_id

/-! ## Shared scoring routine and weight application (spec section 4.2) -/

/-- Modelled from the spec: the shared linear scoring routine — the dot
product of the weight coefficients with the entity's feature vector.  This
single routine backs both the Learner's internal scoring and weight-apply
mode (the runner/classifier modules are not among the available sources). -/
def dotScore (w : List Rat) (fs : List Rat) : Rat :=
  (List.zip w fs).foldl (fun acc p => acc + p.1 * p.2) 0

/-- The Learner's internal per-entity scoring with a fixed weight vector. -/
def learnerScore (w : WeightVector) (e : Entity) : Rat :=
  dotScore w.weights e.features

/-- The Learner's internal scoring routine over an entity set. -/
def learnerScores (w : WeightVector) (es : List Entity) : List Rat :=
  es.map (learnerScore w)

/-- Modelled from the spec: weight-apply mode (`PyProphetWeightApplier`,
selected in `main.py` line 167 when `apply_weights` is provided) — skip
training and evaluate the stored WeightVector on each new entity through
the shared scoring routine. -/
def applierScores (w : WeightVector) : List Entity → List Rat
  | [] => []
  | e :: rest => learnerScore w e :: applierScores w rest

/-! ## Parallel evaluation and seeded determinism (spec section 5) -/

/-- Split a list into chunks of `k + 1` elements (at least one element per
chunk, so any thread count yields a valid partition). -/
def chunkList (k : Nat) : List Entity → List (List Entity)
  | [] => []
  | x :: xs => (x :: xs.take k) :: chunkList k (xs.drop k)
termination_by l => l.length
decreasing_by
  simp only [List.length_drop, List.length_cons]
  omega

/-- Modelled from the spec: the worker pool — the entity list is split into
per-worker chunks sized by the thread count, each chunk is scored
independently, and the per-chunk results are concatenated in order. -/
def parMap (threads : Nat) (f : Entity → Nat × Rat) (l : List Entity) : List (Nat × Rat) :=
  ((chunkList threads l).map (List.map f)).flatten

/-- Modelled from the spec: the per-entity scoring work item of one engine
run — deterministic given the seed (fold assignment uses the seeded source,
not wall-clock entropy) — producing the entity's output row. -/
def scoreEntity (entities : List Entity) (seed : Nat) (e : Entity) : Nat × Rat :=
  (e.id, e.d_score + entityFold entities 2 seed e)

/-- Modelled from the spec: one engine run in reproducibility mode — score
every entity on a worker pool of the configured thread count, with all
random choices drawn from the fixed seed. -/
def runEngine (seed threads : Nat) (entities : List Entity) : List (Nat × Rat) :=
  parMap threads (scoreEntity entities seed) entities

/-! ## FDR-calculation stage and its failure (spec sections 4.3 and 7) -/

/-- Typed errors of the engine (spec section 7 taxonomy; only the
constructor exercised by the claims is needed). -/
inductive EngineError where
  | NoTargetsError
deriving DecidableEq

/-- Modelled from the spec: empirical tail p-value of a discriminant `d`
against the decoy (null) discriminant distribution. -/
def pvalueOf (decoyScores : List Rat) (d : Rat) : Rat :=
  ((decoyScores.countP (fun x => d ≤ x)) : Rat) / (decoyScores.length : Rat)

/-- Modelled from the spec: the load stage — the core consumes plain
in-memory record sets, so loading an entity list never fails. -/
def loadStage (rows : List Entity) : Except EngineError (List Entity) :=
  Except.ok rows

/-- Modelled from the spec: the FDR-calculation stage.  With no decoys the
empirical null distribution is empty and with no targets there is nothing to
score; either way the calculator signals the `NoTargetsError`-equivalent
failure instead of emitting a zero-quality result.  Otherwise it computes
empirical p-values of the targets against the decoys and step-up q-values. -/
def fdrCalc (pi0 : Rat) (entities : List Entity) : Except EngineError (List Rat) :=
  let decoys := entities.filter (fun e => e.is_decoy)
  let targets := entities.filter (fun e => !e.is_decoy)
  if decoys.isEmpty || targets.isEmpty then
    Except.error EngineError.NoTargetsError
  else
    Except.ok (qvalues pi0 (targets.map (fun t => pvalueOf (decoys.map Entity.d_score) t.d_score)))

/-- The load-then-calculate pipeline around the FDR stage. -/
def fdrPipeline (pi0 : Rat) (rows : List Entity) : Except EngineError (List Rat) :=
  (loadStage rows).bind (fdrCalc pi0)

/-! ## Statement of the claim about the `filter` dispatch -/

/-- The positional database files are neither all `.sqmass` nor all `.osw`
(mixed or unrecognized suffixes). -/
abbrev mixedSuffixes (a : FilterArgs) : Prop :=
  ¬ (a.sqldbfiles.all (fun f => posixSuffixLower f == ".sqmass".toList)) = true ∧
  ¬ (a.sqldbfiles.all (fun f => posixSuffixLower f == ".osw".toList)) = true

/-- The positional database files are all `.sqmass` files. -/
abbrev allSqmassFiles (a : FilterArgs) : Prop :=
  (a.sqldbfiles.all (fun f => posixSuffixLower f == ".sqmass".toList)) = true

/-- The claim about the `filter` dispatch, as stated: a mixed/unrecognized
invocation returns normally with no exception and no filtering, and the same
full outcome (no exception, no filtering) also holds on the all-sqMass path
when `--in` is missing and `keep_naked_peptides` is empty. -/
def filterClaimAsStated : Prop :=
  (∀ a : FilterArgs, mixedSuffixes a →
    filterCommand a = { raised := false, calls := [] }) ∧
  (∀ a : FilterArgs, allSqmassFiles a → a.infile = none → a.keep_naked_peptides = [] →
    filterCommand a = { raised := false, calls := [] })

/-! ## Helper lemmas -/

/-- The right-to-left running minimum is non-decreasing left to right. -/
theorem suffixMin_chain (l : List Rat) : List.Chain' (· ≤ ·) (suffixMin l) := by
  induction l with
  | nil => simp [suffixMin]
  | cons x xs ih =>
    cases h : suffixMin xs with
    | nil => simp [suffixMin, h]
    | cons y ys =>
      rw [h] at ih
      simp only [suffixMin, h]
      exact List.chain'_cons.mpr ⟨min_le_right x y, ih⟩

/-- The running minimum is pointwise monotone in its input. -/
theorem suffixMin_forall₂ {a b : List Rat} (h : List.Forall₂ (· ≤ ·) a b) :
    List.Forall₂ (· ≤ ·) (suffixMin a) (suffixMin b) := by
  induction h with
  | nil => simp [suffixMin]
  | @cons x y l₁ l₂ hxy htail ih =>
    cases h1 : suffixMin l₁ with
    | nil =>
      cases h2 : suffixMin l₂ with
      | nil =>
        simp only [suffixMin, h1, h2]
        exact List.Forall₂.cons hxy List.Forall₂.nil
      | cons b bs => rw [h1, h2] at ih; cases ih
    | cons a as =>
      cases h2 : suffixMin l₂ with
      | nil => rw [h1, h2] at ih; cases ih
      | cons b bs =>
        rw [h1, h2] at ih
        simp only [suffixMin, h1, h2]
        cases ih with
        | cons hab htl =>
          exact List.Forall₂.cons (min_le_min hxy hab) (List.Forall₂.cons hab htl)

/-- Pointwise comparison of the raw step-up estimates: with a usable p-value
the pFDR denominator is at most the plain denominator, so the pFDR estimate
dominates. -/
theorem rawQ_le_rawQpfdr (pi0 : Rat) (m k : Nat) (p : Rat)
    (hpi0 : 0 ≤ pi0) (hm : 1 ≤ m) (hp0 : 0 < p) (hp1 : p ≤ 1) :
    rawQ pi0 m (k, p) ≤ rawQpfdr pi0 m (k, p) := by
  unfold rawQ rawQpfdr
  have ht1 : (1 - p) ^ m < 1 := pow_lt_one₀ (by linarith) (by linarith) (by omega)
  have ht0 : (0:Rat) ≤ (1 - p) ^ m := pow_nonneg (by linarith) m
  have hd : (0:Rat) < (k : Rat) + 1 := by positivity
  have ha : (0:Rat) ≤ pi0 * m * p := by positivity
  have hc : (0:Rat) < ((k : Rat) + 1) * (1 - (1 - p) ^ m) := by
    apply mul_pos hd
    linarith
  have hcb : ((k : Rat) + 1) * (1 - (1 - p) ^ m) ≤ (k : Rat) + 1 := by
    nlinarith
  exact div_le_div_of_nonneg_left ha hc hcb

/-- Pointwise domination of the two raw maps over an indexed p-value list. -/
theorem forall₂_rawQ_enumFrom (pi0 : Rat) (m : Nat) (hpi0 : 0 ≤ pi0) (hm : 1 ≤ m) :
    ∀ (l : List Rat) (k : Nat), (∀ p ∈ l, 0 < p ∧ p ≤ 1) →
      List.Forall₂ (· ≤ ·) ((List.enumFrom k l).map (rawQ pi0 m))
        ((List.enumFrom k l).map (rawQpfdr pi0 m)) := by
  intro l
  induction l with
  | nil => intro k _; simp
  | cons p rest ih =>
    intro k h
    rw [List.enumFrom_cons]
    simp only [List.map_cons]
    refine List.Forall₂.cons ?_ (ih (k + 1) ?_)
    · have hp := h p (by simp)
      exact rawQ_le_rawQpfdr pi0 m k p hpi0 hm hp.1 hp.2
    · intro q hq
      exact h q (List.mem_cons_of_mem _ hq)

/-- A running maximum started at `m` is a non-decreasing sequence above `m`. -/
theorem cummaxFrom_chain (xs : List Rat) (m : Rat) :
    List.Chain' (· ≤ ·) (m :: cummaxFrom m xs) := by
  induction xs generalizing m with
  | nil => simp [cummaxFrom]
  | cons x xs ih =>
    simp only [cummaxFrom]
    exact List.chain'_cons.mpr ⟨le_max_left m x, ih (max m x)⟩

/-- The running maximum of a list is non-decreasing. -/
theorem cummax_chain (l : List Rat) : List.Chain' (· ≤ ·) (cummax l) := by
  cases l with
  | nil => simp [cummax]
  | cons x xs =>
    simp only [cummax]
    exact cummaxFrom_chain xs x

/-- The running maximum stays at or below 1 when the start value and all
inputs are at or below 1. -/
theorem cummaxFrom_le_one (xs : List Rat) (m : Rat) (hm : m ≤ 1)
    (hxs : ∀ x ∈ xs, x ≤ 1) : ∀ y ∈ cummaxFrom m xs, y ≤ 1 := by
  induction xs generalizing m with
  | nil => simp [cummaxFrom]
  | cons x xs ih =>
    intro y hy
    simp only [cummaxFrom, List.mem_cons] at hy
    have hmx : max m x ≤ 1 := max_le hm (hxs x (by simp))
    rcases hy with rfl | hy
    · exact hmx
    · exact ih (max m x) hmx (fun z hz => hxs z (by simp [hz])) y hy

/-- The running maximum of a list bounded by 1 is bounded by 1. -/
theorem cummax_le_one (l : List Rat) (hl : ∀ x ∈ l, x ≤ 1) :
    ∀ y ∈ cummax l, y ≤ 1 := by
  cases l with
  | nil => simp [cummax]
  | cons x xs =>
    intro y hy
    simp only [cummax, List.mem_cons] at hy
    have hx : x ≤ 1 := hl x (by simp)
    rcases hy with rfl | hy
    · exact hx
    · exact cummaxFrom_le_one xs x hx (fun z hz => hl z (by simp [hz])) y hy

/-- Flattening the chunks of a list recovers the list. -/
theorem chunkList_flatten (k : Nat) (l : List Entity) : (chunkList k l).flatten = l := by
  generalize hn : l.length = n
  induction n using Nat.strong_induction_on generalizing l with
  | _ n ih =>
    cases l with
    | nil => simp [chunkList]
    | cons x xs =>
      have hlen : (xs.drop k).length < n := by
        subst hn
        simp only [List.length_drop, List.length_cons]
        omega
      simp only [chunkList, List.flatten_cons]
      rw [ih (xs.drop k).length hlen (xs.drop k) rfl]
      simp [List.take_append_drop]

/-- Chunked parallel mapping agrees with sequential mapping for every chunk
size. -/
theorem parMap_eq_map (t : Nat) (f : Entity → Nat × Rat) (l : List Entity) :
    parMap t f l = l.map f := by
  unfold parMap
  rw [← List.map_flatten, chunkList_flatten]

/-! ## Claim theorems -/

/-- Claim C1: for every input, the q-values computed by the FDR calculator
are non-decreasing along the ascending-sorted p-values (monotonicity of the
step-up correction). -/
theorem C1_qvalues_monotone (pi0 : Rat) (ps : List Rat) :
    List.Chain' (· ≤ ·) (qvalues pi0 ps) :=
  suffixMin_chain _

/-- Claim C2: the pi0 estimate always lies in [0, 1]; when every lambda
candidate of the grid fails, pi0 equals exactly 1, the run is marked as a
conservative fallback, and no exception is raised (the estimator is a total
function). -/
theorem C2_pi0_bounds_and_fallback (ps lambdas : List Rat) :
    0 ≤ (pi0est ps lambdas).1 ∧ (pi0est ps lambdas).1 ≤ 1 ∧
      (lambdas.filterMap (pi0ForLambda ps) = [] →
        (pi0est ps lambdas).1 = 1 ∧ (pi0est ps lambdas).2 = true) := by
  unfold pi0est
  cases h : (lambdas.filterMap (pi0ForLambda ps)).getLast? with
  | none => simp
  | some e =>
    refine ⟨?_, ?_, ?_⟩
    · simp only
      exact le_min (by norm_num) (le_max_left 0 e)
    · simp only
      exact min_le_left 1 _
    · intro hnil
      rw [hnil] at h
      simp at h

/-- Witness for C2 at a concrete input on which every lambda candidate
fails (empty p-value list, so `pi0ForLambda` never converges). -/
theorem C2_pi0_bounds_and_fallback_witness :
    0 ≤ (pi0est ([] : List Rat) [(1:Rat)/2]).1 ∧
      (pi0est ([] : List Rat) [(1:Rat)/2]).1 ≤ 1 ∧
      (pi0est ([] : List Rat) [(1:Rat)/2]).1 = 1 ∧
      (pi0est ([] : List Rat) [(1:Rat)/2]).2 = true := by
  obtain ⟨h1, h2, h3⟩ := C2_pi0_bounds_and_fallback ([] : List Rat) [(1:Rat)/2]
  exact ⟨h1, h2, h3 (by decide)⟩

/-- Claim C3: the fold assignment produced by `assign_folds` gives any two
entities sharing a `group_id` the same fold index, for every entity set,
fold count and seed: the assignment looked up for the shared group is one
and the same entry, and the per-entity folds coincide. -/
theorem C3_no_group_split (entities : List Entity) (numFolds seed : Nat)
    (e1 e2 : Entity) (_h1 : e1 ∈ entities) (_h2 : e2 ∈ entities)
    (hg : e1.group_id = e2.group_id) :
    (assign_folds entities numFolds seed).lookup e1.group_id =
      (assign_folds entities numFolds seed).lookup e2.group_id ∧
    entityFold entities numFolds seed e1 = entityFold entities numFolds seed e2 := by
  constructor
  · rw [hg]
  · unfold entityFold foldOfGroup
    rw [hg]

/-- Witness for C3: two concrete entities of the same group land in the same
fold. -/
theorem C3_no_group_split_witness :
    (assign_folds [⟨1, 7, false, [], 0⟩, ⟨2, 7, true, [], 1⟩] 3 5).lookup 7 =
      (assign_folds [⟨1, 7, false, [], 0⟩, ⟨2, 7, true, [], 1⟩] 3 5).lookup 7 ∧
    entityFold [⟨1, 7, false, [], 0⟩, ⟨2, 7, true, [], 1⟩] 3 5 ⟨1, 7, false, [], 0⟩ =
      entityFold [⟨1, 7, false, [], 0⟩, ⟨2, 7, true, [], 1⟩] 3 5 ⟨2, 7, true, [], 1⟩ :=
  C3_no_group_split [⟨1, 7, false, [], 0⟩, ⟨2, 7, true, [], 1⟩] 3 5
    ⟨1, 7, false, [], 0⟩ ⟨2, 7, true, [], 1⟩ (by simp) (by simp) rfl

/-- Claim C4: for every fixed WeightVector and entity set, weight-apply mode
produces d-scores identical to the Learner's own internal scoring routine on
the same entities. -/
theorem C4_weight_apply_matches_learner (w : WeightVector) (es : List Entity) :
    applierScores w es = learnerScores w es := by
  induction es with
  | nil => rfl
  | cons e rest ih =>
    simp only [applierScores, learnerScores, List.map_cons]
    simp only [learnerScores] at ih
    rw [ih]

/-- Claim C5: with a fixed seed, the engine's output score table is
independent of the configured degree of parallelism, so two runs of the same
configuration produce identical score tables regardless of thread count. -/
theorem C5_seeded_run_thread_independent (seed t1 t2 : Nat) (entities : List Entity) :
    runEngine seed t1 entities = runEngine seed t2 entities := by
  unfold runEngine
  rw [parMap_eq_map, parMap_eq_map]

/-- Claim C6: when `lfdr_monotone` is set the post-processed local FDR
values are non-decreasing along ascending p-values, and when
`lfdr_truncate` is set no post-processed local FDR value exceeds 1. -/
theorem C6_lfdr_flags (lfdr_truncate lfdr_monotone : Bool) (raw : List Rat) :
    (lfdr_monotone = true →
      List.Chain' (· ≤ ·) (lfdrPost lfdr_truncate lfdr_monotone raw)) ∧
    (lfdr_truncate = true →
      ∀ y ∈ lfdrPost lfdr_truncate lfdr_monotone raw, y ≤ 1) := by
  constructor
  · intro hm
    subst hm
    unfold lfdrPost
    simp only [if_pos rfl]
    exact cummax_chain _
  · intro ht
    subst ht
    unfold lfdrPost
    simp only [if_pos rfl]
    have hb : ∀ x ∈ raw.map (fun x => min x 1), x ≤ 1 := by
      intro x hx
      obtain ⟨a, _, rfl⟩ := List.mem_map.mp hx
      exact min_le_right a 1
    cases lfdr_monotone with
    | true =>
      simp only [if_pos rfl]
      exact cummax_le_one _ hb
    | false =>
      simp only [if_neg Bool.false_ne_true]
      exact hb

/-- Witness for C6 at a concrete raw local-FDR list containing a value above
1, with both flags set. -/
theorem C6_lfdr_flags_witness :
    List.Chain' (· ≤ ·) (lfdrPost true true [(3:Rat), 1/2]) ∧
      ∀ y ∈ lfdrPost true true [(3:Rat), 1/2], y ≤ 1 :=
  ⟨(C6_lfdr_flags true true [3, 1/2]).1 rfl, (C6_lfdr_flags true true [3, 1/2]).2 rfl⟩

/-- Claim C7: on any input whose p-values are usable (strictly positive, at
most 1 — a non-trivial rejection set), every q-value computed with the pFDR
option is at least the corresponding standard q-value on the same input. -/
theorem C7_pfdr_dominates_fdr (pi0 : Rat) (ps : List Rat) (hpi0 : 0 ≤ pi0)
    (hps : ∀ p ∈ ps, 0 < p ∧ p ≤ 1) :
    List.Forall₂ (· ≤ ·) (qvalues pi0 ps) (qvaluesPfdr pi0 ps) := by
  unfold qvalues qvaluesPfdr
  apply suffixMin_forall₂
  rcases ps with _ | ⟨p0, rest⟩
  · simp
  · have hm : 1 ≤ (p0 :: rest).length := by simp
    have hmem : ∀ q ∈ (p0 :: rest).insertionSort (· ≤ ·), 0 < q ∧ q ≤ 1 := by
      intro q hq
      exact hps q ((List.perm_insertionSort (· ≤ ·) (p0 :: rest)).mem_iff.mp hq)
    rw [List.enum_eq_enumFrom]
    exact forall₂_rawQ_enumFrom pi0 (p0 :: rest).length hpi0 hm _ 0 hmem

/-- Witness for C7 at a concrete two-element p-value list. -/
theorem C7_pfdr_dominates_fdr_witness :
    List.Forall₂ (· ≤ ·) (qvalues 1 [(1:Rat)/2, 1]) (qvaluesPfdr 1 [(1:Rat)/2, 1]) :=
  C7_pfdr_dominates_fdr 1 [(1:Rat)/2, 1] (by norm_num)
    (by
      intro p hp
      simp only [List.mem_cons, List.not_mem_nil, or_false] at hp
      rcases hp with rfl | rfl <;> norm_num)

/-- Claim C8: a dataset with zero decoys fails with the
`NoTargetsError`-equivalent at FDR-calculation time — loading succeeds, and
the pipeline error comes from the FDR stage, never a silently empty result. -/
theorem C8_zero_decoys_fails_at_fdr_stage (pi0 : Rat) (rows : List Entity)
    (h : rows.filter (fun e => e.is_decoy) = []) :
    loadStage rows = Except.ok rows ∧
      fdrPipeline pi0 rows = Except.error EngineError.NoTargetsError := by
  refine ⟨rfl, ?_⟩
  simp [fdrPipeline, loadStage, fdrCalc, h, Except.bind]

/-- Witness for C8 on a concrete one-target, zero-decoy dataset. -/
theorem C8_zero_decoys_fails_at_fdr_stage_witness :
    loadStage [(⟨1, 1, false, [], 2⟩ : Entity)] =
        Except.ok [(⟨1, 1, false, [], 2⟩ : Entity)] ∧
      fdrPipeline 1 [(⟨1, 1, false, [], 2⟩ : Entity)] =
        Except.error EngineError.NoTargetsError :=
  C8_zero_decoys_fails_at_fdr_stage 1 [⟨1, 1, false, [], 2⟩] (by decide)

/-- Counterexample to the `filter` claim as stated: on the concrete
invocation with positional files `["a.sqmass"]`, no `--in`, and empty
`keep_naked_peptides`, the ClickException of line 718 is indeed never
raised, but filtering is performed anyway — `filter_sqmass` is invoked on
line 719 — so the "without performing any filtering" outcome does not carry
over to the sqMass path. -/
theorem C9_counterexample : ¬ filterClaimAsStated := by
  intro h
  exact absurd (h.2 ⟨["a.sqmass"], none, []⟩ (by decide) rfl rfl) (by decide)

/-- Claim C9 (amended): with mixed or unrecognized suffixes the `filter`
command returns normally, raising nothing and performing no filtering (the
ClickException constructed on line 723 is never raised); on the all-sqMass
path with `--in` missing and empty `keep_naked_peptides`, the
ClickException of line 718 is likewise never raised, but `filter_sqmass` is
still invoked, so filtering does happen there. -/
theorem C9_filter_dispatch (a : FilterArgs) :
    (mixedSuffixes a → filterCommand a = { raised := false, calls := [] }) ∧
    (allSqmassFiles a → a.infile = none → a.keep_naked_peptides = [] →
      filterCommand a = { raised := false, calls := [FilterCall.filterSqmass] }) := by
  constructor
  · intro h
    unfold filterCommand
    rw [if_neg h.1, if_neg h.2]
  · intro h _ _
    have h2 : (a.sqldbfiles.all fun f => posixSuffixLower f == ".sqmass".toList) = true := h
    unfold filterCommand
    rw [if_pos h2]

/-- Witness for the amended C9 at concrete invocations: an unrecognized
suffix falls through with no worker call, and an sqMass invocation missing
`--in` still calls `filter_sqmass`. -/
theorem C9_filter_dispatch_witness :
    filterCommand ⟨["a.txt"], none, []⟩ = { raised := false, calls := [] } ∧
      filterCommand ⟨["a.sqmass"], none, []⟩ =
        { raised := false, calls := [FilterCall.filterSqmass] } :=
  ⟨(C9_filter_dispatch ⟨["a.txt"], none, []⟩).1 (by decide),
   (C9_filter_dispatch ⟨["a.sqmass"], none, []⟩).2 (by decide) rfl rfl⟩

/-- Claim C10: for each subcommand that takes an optional `--out` (score,
ipf, glycoform, peptide, glycopeptide, gene, protein, subsample, reduce,
backpropagate), omitting `--out` resolves the output path to the input
path, so results are written in place over the input file. -/
theorem C10_out_defaults_to_in (infile : String) :
    scoreOutfile infile none = infile ∧
    ipfOutfile infile none = infile ∧
    glycoformOutfile infile none = infile ∧
    peptideOutfile infile none = infile ∧
    glycopeptideOutfile infile none = infile ∧
    geneOutfile infile none = infile ∧
    proteinOutfile infile none = infile ∧
    subsampleOutfile infile none = infile ∧
    reduceOutfile infile none = infile ∧
    backpropagateOutfile infile none = infile :=
  ⟨rfl, rfl, rfl, rfl, rfl, rfl, rfl, rfl, rfl, rfl⟩
